import Mathlib

/-!
Verification of the workbox background-sync Queue + QueueStore subsystem.

The repository source available here contains the subsystem's constants
(`packages/workbox-background-sync/lib/constants.mjs`), its browser test
suite, and its consumers; the Queue, QueueStore and StorableRequest
implementation files themselves are not present.  Where a definition below
embeds one of those missing implementation files it is modelled from the
specification (spec.md) and its doc comment says so explicitly.
-/

namespace Workbox

/-- Modelled from the spec: the serialized request record (`requestData`)
stored by StorableRequest (missing from src); fields per spec section 3 /
4.4: url, method, headers map, optional body bytes, mode, credentials,
cache, redirect, referrer, integrity. -/
structure RequestData where
  url : String
  method : String
  headers : List (String × String)
  body : Option (List Nat)
  mode : String
  credentials : String
  cache : String
  redirect : String
  referrer : String
  integrity : String
deriving DecidableEq, Repr

/-- Modelled from the spec: a live HTTP request as observed by
SerializableRequest (StorableRequest is missing from src); same observable
fields as the stored record, with the body as a byte buffer. -/
structure SRequest where
  url : String
  method : String
  headers : List (String × String)
  body : Option (List Nat)
  mode : String
  credentials : String
  cache : String
  redirect : String
  referrer : String
  integrity : String
deriving DecidableEq, Repr

/-- Modelled from the spec (section 4.4 forward transform): capture all
fields; if the method permits a body (not GET/HEAD) read it as a byte
buffer, otherwise omit it. -/
def serialize (r : SRequest) : RequestData :=
  { url := r.url
    method := r.method
    headers := r.headers
    body := if r.method = "GET" ∨ r.method = "HEAD" then none else r.body
    mode := r.mode
    credentials := r.credentials
    cache := r.cache
    redirect := r.redirect
    referrer := r.referrer
    integrity := r.integrity }

/-- Modelled from the spec (section 4.4 reverse transform): construct a new
request with exactly the captured fields, attaching the body if present. -/
def deserialize (d : RequestData) : SRequest :=
  { url := d.url
    method := d.method
    headers := d.headers
    body := d.body
    mode := d.mode
    credentials := d.credentials
    cache := d.cache
    redirect := d.redirect
    referrer := d.referrer
    integrity := d.integrity }

/-- Caller-supplied opaque metadata map, preserved verbatim (spec section 3). -/
abbrev Metadata := List (String × String)

/-- The id-independent content of a stored entry: queue name, serialized
request, enqueue timestamp (ms since epoch) and optional metadata. -/
structure Payload where
  queueName : String
  requestData : RequestData
  timestamp : Int
  metadata : Option Metadata
deriving DecidableEq, Repr

/-- Modelled from the spec (section 3 data model): one stored record of the
`requests` object store; `id` is the auto-increment primary key defining
total order within the store. -/
structure Entry where
  id : Int
  queueName : String
  requestData : RequestData
  timestamp : Int
  metadata : Option Metadata
deriving DecidableEq, Repr

def Entry.payload (e : Entry) : Payload :=
  ⟨e.queueName, e.requestData, e.timestamp, e.metadata⟩

def Payload.toEntry (p : Payload) (id : Int) : Entry :=
  ⟨id, p.queueName, p.requestData, p.timestamp, p.metadata⟩

/-- Modelled from the spec (section 4.2): the shared database state.  The
list `entries` is kept in `id` order (the order IndexedDB iterates the
primary key); `nextId` is the auto-increment counter. -/
structure Store where
  entries : List Entry
  nextId : Int
deriving DecidableEq, Repr

/-- A fresh store: no entries, auto-increment counter at 1. -/
def emptyStore : Store := ⟨[], 1⟩

/-- Modelled from the spec (section 4.2 `addLast`): write a new record whose
assigned id is the auto-increment counter, strictly greater than any prior
id. -/
def Store.addLast (s : Store) (p : Payload) : Store :=
  ⟨s.entries ++ [p.toEntry s.nextId], s.nextId + 1⟩

/-- The minimum id across all records of the store, if any. -/
def minId : List Entry → Option Int
  | [] => none
  | e :: rest =>
    some (match minId rest with
          | none => e.id
          | some m => min e.id m)

/-- Modelled from the spec (section 4.2 `addFirst`): read the current
minimum id across the store and insert a record with an id one less
(possibly negative), so its order precedes all existing records; when the
store is empty the auto-increment key is used as in `addLast`. -/
def Store.addFirst (s : Store) (p : Payload) : Store :=
  match minId s.entries with
  | none => s.addLast p
  | some m => ⟨p.toEntry (m - 1) :: s.entries, s.nextId⟩

/-- Modelled from the spec (section 4.2 `getAll`): all records of a queue,
ordered by id ascending. -/
def Store.getAll (s : Store) (qn : String) : List Entry :=
  s.entries.filter (fun e => e.queueName == qn)

/-- From src `packages/workbox-background-sync/lib/constants.mjs`. -/
def TAG_PREFIX : String := "workbox-background-sync"

/-- From src `packages/workbox-background-sync/lib/constants.mjs`:
7 days in minutes. -/
def MAX_RETENTION_TIME : Nat := 60 * 24 * 7

/-- Error kinds raised by the subsystem (spec section 7). -/
inductive WorkboxErr where
  | duplicateQueueName
deriving DecidableEq, Repr

/-- A queue handle: its registered name and retention time in minutes. -/
structure Queue where
  name : String
  maxRetentionTime : Nat
deriving DecidableEq, Repr

/-- Modelled from the spec (sections 4.1, 4.3, Queue.mjs missing from src):
the constructor registers the name in the process-wide registry, failing
with DuplicateQueueName if taken, and defaults `maxRetentionTime` to
MAX_RETENTION_TIME when the option is omitted. -/
def mkQueue (names : List String) (name : String) (maxRetentionTime : Option Nat) :
    Except WorkboxErr (Queue × List String) :=
  if name ∈ names then .error .duplicateQueueName
  else .ok (⟨name, maxRetentionTime.getD MAX_RETENTION_TIME⟩, names ++ [name])

/-- Modelled from the spec (section 4.1 reset hook, `Queue._queueNames.clear()`
in the tests): empty the process-wide name registry. -/
def clearQueueNames (_names : List String) : List String := []

/-- Modelled from the spec (section 6 sync tag format): the tag handed to
the background-sync trigger, derived from the queue name. -/
def syncTag (name : String) : String := TAG_PREFIX ++ ":" ++ name

/-- Does the entry belong to this queue (QueueStore operations select by the
`queueName` index)? -/
def matchQ (q : Queue) (e : Entry) : Bool := e.queueName == q.name

/-- Modelled from the spec (section 4.3.2): an entry is expired when
`now - timestamp` exceeds `maxRetentionTime` converted from minutes to
milliseconds. -/
def expired (q : Queue) (now : Int) (e : Entry) : Bool :=
  decide ((q.maxRetentionTime : Int) * 60 * 1000 < now - e.timestamp)

/-- An entry of this queue that has not expired. -/
def freshMatch (q : Queue) (now : Int) (e : Entry) : Bool :=
  matchQ q e && !expired q now e

/-- Modelled from the spec (sections 4.3, 4.5 `registerSync`): when the host
exposes the background-sync facility, invoke its trigger with the queue's
tag and swallow any rejection; otherwise do nothing.  Returns the call
outcome (always a normal return) together with the list of tags passed to
the host trigger. -/
def registerSync (syncSupported : Bool) (hostRegister : String → Except String Unit)
    (name : String) : Except String Unit × List String :=
  if syncSupported then
    (match hostRegister (syncTag name) with
     | .ok _ => .ok ()
     | .error _ => .ok (), [syncTag name])
  else (.ok (), [])

/-- Argument to `pushRequest`/`unshiftRequest`: a request with optional
timestamp override and optional metadata. -/
structure PushInput where
  request : SRequest
  timestamp : Option Int
  metadata : Option Metadata
deriving DecidableEq, Repr

/-- Modelled from the spec (section 4.3 `pushRequest`): serialize, stamp the
timestamp (defaulting to now), insert at the tail via `Store.addLast`, then
call `registerSync`.  Returns the new store and the tags registered. -/
def pushRequest (q : Queue) (syncSupported : Bool)
    (hostRegister : String → Except String Unit) (now : Int) (inp : PushInput)
    (s : Store) : Store × List String :=
  let s2 := s.addLast ⟨q.name, serialize inp.request, inp.timestamp.getD now, inp.metadata⟩
  (s2, (registerSync syncSupported hostRegister q.name).2)

/-- Modelled from the spec (section 4.3 `unshiftRequest`): like
`pushRequest` but inserting at the head via `Store.addFirst`. -/
def unshiftRequest (q : Queue) (syncSupported : Bool)
    (hostRegister : String → Except String Unit) (now : Int) (inp : PushInput)
    (s : Store) : Store × List String :=
  let s2 := s.addFirst ⟨q.name, serialize inp.request, inp.timestamp.getD now, inp.metadata⟩
  (s2, (registerSync syncSupported hostRegister q.name).2)

/-- Modelled from the spec (sections 4.3, 4.3.2, Queue `_removeRequest`
missing from src): pop the first entry of the queue; an expired entry is
deleted and the read retried on the remaining store; a fresh entry is
returned and removed.  Stated directly on the id-ordered entry list. -/
def shiftLoop (q : Queue) (now : Int) : List Entry → Option Entry × List Entry
  | [] => (none, [])
  | e :: rest =>
    if matchQ q e then
      if expired q now e then shiftLoop q now rest
      else (some e, rest)
    else
      let p := shiftLoop q now rest
      (p.1, e :: p.2)

/-- Modelled from the spec (section 4.3 `shiftRequest`): return and remove
the head entry of the queue, deleting expired entries encountered on the
way; nothing when no fresh entry remains. -/
def shiftRequest (q : Queue) (now : Int) (s : Store) : Option Entry × Store :=
  let p := shiftLoop q now s.entries
  (p.1, ⟨p.2, s.nextId⟩)

/-- Modelled from the spec (section 4.3 `popRequest`): same as
`shiftRequest` but from the tail, i.e. the first entry in reverse id
order. -/
def popRequest (q : Queue) (now : Int) (s : Store) : Option Entry × Store :=
  let p := shiftLoop q now s.entries.reverse
  (p.1, ⟨p.2.reverse, s.nextId⟩)

/-- Repeated `shiftRequest` until the queue reports empty, collecting the
returned entries in order (the read side of the FIFO drain used by the
spec's testable properties).  Fuel-indexed: each successful read strictly
shrinks the store, so fuel equal to the store size (as supplied by
`drainShift`) is sufficient, which the characterization theorems confirm. -/
def drainShiftGo (q : Queue) (now : Int) : Nat → Store → List Entry × Store
  | 0, s => ([], s)
  | fuel + 1, s =>
    match shiftRequest q now s with
    | (none, s2) => ([], s2)
    | (some e, s2) =>
      let r := drainShiftGo q now fuel s2
      (e :: r.1, r.2)

/-- Drain the queue from the head by repeated `shiftRequest`. -/
def drainShift (q : Queue) (now : Int) (s : Store) : List Entry × Store :=
  drainShiftGo q now s.entries.length s

/-- Repeated `popRequest` until the queue reports empty, collecting the
returned entries in order; fuel-indexed like `drainShiftGo`. -/
def drainPopGo (q : Queue) (now : Int) : Nat → Store → List Entry × Store
  | 0, s => ([], s)
  | fuel + 1, s =>
    match popRequest q now s with
    | (none, s2) => ([], s2)
    | (some e, s2) =>
      let r := drainPopGo q now fuel s2
      (e :: r.1, r.2)

/-- Drain the queue from the tail by repeated `popRequest`. -/
def drainPop (q : Queue) (now : Int) (s : Store) : List Entry × Store :=
  drainPopGo q now s.entries.length s

/-- Result of a `replayRequests` call: the error raised (the WorkboxError
code `queue-replay-failed`, or none), the final store, and the serialized
requests that were handed to the host `fetch`, in call order. -/
structure ReplayResult where
  error : Option String
  store : Store
  fetched : List RequestData
deriving DecidableEq, Repr

/-- Modelled from the spec (section 4.3.1 replay algorithm, Queue.mjs
missing from src): while the queue is non-empty, pop the head entry via
`shiftRequest` (which drops expired entries without fetching them) and
issue `fetch` on it; on rejection re-enqueue the entry at the head via
`Store.addFirst` preserving its timestamp and metadata and fail with
`queue-replay-failed`; on success continue.  The host fetch outcome is the
oracle `fetchOk`, indexed by the number of fetches already issued during
this call.  Fuel-indexed: each iteration strictly shrinks the store, so
fuel equal to the store size (as supplied by `replayRequests`) is
sufficient, which the characterization theorems confirm. -/
def replayGo (q : Queue) (fetchOk : Nat → Bool) (now : Int) :
    Nat → Nat → Store → ReplayResult
  | 0, _, s => ⟨none, s, []⟩
  | fuel + 1, idx, s =>
    match shiftRequest q now s with
    | (none, s2) => ⟨none, s2, []⟩
    | (some e, s2) =>
      if fetchOk idx then
        let r := replayGo q fetchOk now fuel (idx + 1) s2
        ⟨r.error, r.store, e.requestData :: r.fetched⟩
      else
        ⟨some "queue-replay-failed", s2.addFirst e.payload, [e.requestData]⟩

/-- Modelled from the spec (section 4.3 `replayRequests`): drain the queue
head-to-tail re-issuing each request via the host fetch primitive. -/
def replayRequests (q : Queue) (fetchOk : Nat → Bool) (now : Int) (s : Store) :
    ReplayResult :=
  replayGo q fetchOk now s.entries.length 0 s

/-- A sequence of `pushRequest` calls on one queue (only the store result;
the registered tags are identical for every push). -/
def pushAll (q : Queue) (syncSupported : Bool)
    (hostRegister : String → Except String Unit) (now : Int)
    (inputs : List PushInput) (s : Store) : Store :=
  inputs.foldl (fun st inp => (pushRequest q syncSupported hostRegister now inp st).1) s

/-- The entries a sequence of pushes stores: consecutive ids from `i`,
serialized requests, defaulted timestamps, metadata verbatim. -/
def mkEntries (q : Queue) (now : Int) : List PushInput → Int → List Entry
  | [], _ => []
  | inp :: rest, i =>
    (⟨q.name, serialize inp.request, inp.timestamp.getD now, inp.metadata⟩ : Payload).toEntry i
      :: mkEntries q now rest (i + 1)

/-- Modelled from the spec (sections 4.3, 4.5, Queue.mjs missing from src):
the `onSync` callbacks invoked during construction — exactly one, for this
queue, when the host does not expose background-sync (cold-start
fallback); none otherwise. -/
def constructorOnSyncCalls (syncSupported : Bool) (name : String) : List String :=
  if syncSupported then [] else [name]

/-- Modelled from the spec (section 4.3, Queue.mjs missing from src): the
`onSync` callbacks a dispatched sync event with tag `tag` causes on a queue
named `name` — exactly one when the host supports background-sync and the
tag matches the queue's tag, none otherwise. -/
def syncEventOnSyncCalls (syncSupported : Bool) (name : String) (tag : String) :
    List String :=
  if syncSupported && tag == syncTag name then [name] else []

/-- A concrete request used by the witnesses. -/
def sampleReq (u : String) : SRequest :=
  { url := u
    method := "GET"
    headers := []
    body := none
    mode := "cors"
    credentials := "same-origin"
    cache := "default"
    redirect := "follow"
    referrer := "about:client"
    integrity := "" }

/-- A concrete push argument used by the witnesses. -/
def samplePush (u : String) : PushInput := ⟨sampleReq u, none, none⟩

/-- A host register stub that always resolves, used by the witnesses. -/
def okRegister : String → Except String Unit := fun _ => .ok ()

/-- A concrete queue used by the witnesses. -/
def sampleQueue : Queue := ⟨"a", MAX_RETENTION_TIME⟩

/-- A concrete POST request with a body, used by the witnesses. -/
def samplePost : SRequest :=
  { url := "/submit"
    method := "POST"
    headers := [("x-foo", "bar")]
    body := some [116, 101, 115, 116]
    mode := "cors"
    credentials := "same-origin"
    cache := "default"
    redirect := "follow"
    referrer := "about:client"
    integrity := "" }

/-- A concrete store holding entries of queues `a` and `b`, used by the
witnesses. -/
def sampleStoreAB : Store :=
  ⟨[⟨1, "a", serialize (sampleReq "/one"), 0, none⟩,
    ⟨2, "b", serialize (sampleReq "/x"), 0, none⟩,
    ⟨3, "a", serialize (sampleReq "/three"), 0, none⟩], 4⟩

/-- A concrete store whose first entry has expired, used by the witnesses. -/
def sampleStoreExp : Store :=
  ⟨[⟨1, "a", serialize (sampleReq "/old"), 0, none⟩,
    ⟨2, "a", serialize (sampleReq "/new"), 700000000, none⟩], 3⟩

theorem payload_toEntry (p : Payload) (i : Int) : (p.toEntry i).payload = p := rfl

theorem addFirst_payloads (s : Store) (p : Payload) :
    (s.addFirst p).entries.map Entry.payload = p :: s.entries.map Entry.payload := by
  cases hs : s.entries with
  | nil => simp [Store.addFirst, minId, hs, Store.addLast, payload_toEntry]
  | cons a rest => simp [Store.addFirst, minId, hs, payload_toEntry]

theorem shiftLoop_fst (q : Queue) (now : Int) (l : List Entry) :
    (shiftLoop q now l).1 = (l.filter (freshMatch q now)).head? := by
  induction l with
  | nil => simp [shiftLoop]
  | cons e rest ih =>
    by_cases hm : matchQ q e = true
    · by_cases he : expired q now e = true
      · simpa [shiftLoop, hm, he, freshMatch, List.filter_cons] using ih
      · simp [shiftLoop, hm, he, freshMatch, List.filter_cons]
    · simpa [shiftLoop, hm, freshMatch, List.filter_cons] using ih

theorem shiftLoop_some_length (q : Queue) (now : Int) (l : List Entry) (e : Entry)
    (h : (shiftLoop q now l).1 = some e) :
    (shiftLoop q now l).2.length < l.length := by
  induction l with
  | nil => simp [shiftLoop] at h
  | cons a rest ih =>
    by_cases hm : matchQ q a = true
    · by_cases he : expired q now a = true
      · simp only [shiftLoop, hm, he, if_true] at h ⊢
        exact Nat.lt_succ_of_lt (ih h)
      · simp [shiftLoop, hm, he]
    · simp only [shiftLoop, hm, if_false, Bool.false_eq_true] at h ⊢
      simpa using ih h

theorem shiftLoop_some_fresh (q : Queue) (now : Int) (l : List Entry) (e : Entry)
    (h : (shiftLoop q now l).1 = some e) :
    freshMatch q now e = true ∧ e ∈ l := by
  induction l with
  | nil => simp [shiftLoop] at h
  | cons a rest ih =>
    by_cases hm : matchQ q a = true
    · by_cases he : expired q now a = true
      · simp only [shiftLoop, hm, he, if_true] at h
        exact ⟨(ih h).1, List.mem_cons_of_mem a (ih h).2⟩
      · simp only [shiftLoop, hm, he, if_true, if_false, Bool.false_eq_true,
          Option.some.injEq] at h
        subst h
        exact ⟨by simp [freshMatch, hm, he], List.mem_cons_self a rest⟩
    · simp only [shiftLoop, hm, if_false, Bool.false_eq_true] at h
      exact ⟨(ih h).1, List.mem_cons_of_mem a (ih h).2⟩

theorem shiftLoop_some_filter (q : Queue) (now : Int) (l : List Entry) (e : Entry)
    (h : (shiftLoop q now l).1 = some e) :
    l.filter (freshMatch q now) = e :: (shiftLoop q now l).2.filter (freshMatch q now) := by
  induction l with
  | nil => simp [shiftLoop] at h
  | cons a rest ih =>
    by_cases hm : matchQ q a = true
    · by_cases he : expired q now a = true
      · simp only [shiftLoop, hm, he, if_true] at h ⊢
        simpa [List.filter_cons, freshMatch, hm, he] using ih h
      · simp only [shiftLoop, hm, he, if_true, if_false, Bool.false_eq_true,
          Option.some.injEq] at h ⊢
        subst h
        simp [List.filter_cons, freshMatch, hm, he]
    · simp only [shiftLoop, hm, if_false, Bool.false_eq_true] at h ⊢
      simpa [List.filter_cons, freshMatch, hm] using ih h

theorem shiftLoop_some_nonmatch (q : Queue) (now : Int) (l : List Entry) (e : Entry)
    (h : (shiftLoop q now l).1 = some e) :
    (shiftLoop q now l).2.filter (fun x => !matchQ q x) =
      l.filter (fun x => !matchQ q x) := by
  induction l with
  | nil => simp [shiftLoop] at h
  | cons a rest ih =>
    by_cases hm : matchQ q a = true
    · by_cases he : expired q now a = true
      · simp only [shiftLoop, hm, he, if_true] at h ⊢
        simpa [List.filter_cons, hm] using ih h
      · simp only [shiftLoop, hm, he, if_true, if_false, Bool.false_eq_true,
          Option.some.injEq] at h ⊢
        simp [List.filter_cons, hm]
    · simp only [shiftLoop, hm, if_false, Bool.false_eq_true] at h ⊢
      simpa [List.filter_cons, hm] using ih h

theorem shiftLoop_some_decomp (q : Queue) (now : Int) (l : List Entry) (e : Entry)
    (h : (shiftLoop q now l).1 = some e) :
    ∃ p rest, l = p ++ e :: rest ∧
      (∀ x ∈ p, freshMatch q now x = false) ∧
      (shiftLoop q now l).2 = p.filter (fun x => !matchQ q x) ++ rest := by
  induction l with
  | nil => simp [shiftLoop] at h
  | cons a rest0 ih =>
    by_cases hm : matchQ q a = true
    · by_cases he : expired q now a = true
      · simp only [shiftLoop, hm, he, if_true] at h ⊢
        obtain ⟨p, r, hsplit, hfail, hpost⟩ := ih h
        refine ⟨a :: p, r, by rw [hsplit]; rfl, ?_, ?_⟩
        · intro x hx
          rcases List.mem_cons.mp hx with hx | hx
          · subst hx
            simp [freshMatch, he]
          · exact hfail x hx
        · rw [hpost]
          simp [List.filter_cons, hm]
      · simp only [shiftLoop, hm, he, if_true, if_false, Bool.false_eq_true,
          Option.some.injEq] at h ⊢
        subst h
        exact ⟨[], rest0, rfl, by simp, by simp⟩
    · simp only [shiftLoop, hm, if_false, Bool.false_eq_true] at h ⊢
      obtain ⟨p, r, hsplit, hfail, hpost⟩ := ih h
      refine ⟨a :: p, r, by rw [hsplit]; rfl, ?_, ?_⟩
      · intro x hx
        rcases List.mem_cons.mp hx with hx | hx
        · subst hx
          simp [freshMatch, hm]
        · exact hfail x hx
      · rw [hpost]
        simp [List.filter_cons, hm]

theorem shiftLoop_none_eq (q : Queue) (now : Int) (l : List Entry)
    (h : (shiftLoop q now l).1 = none) :
    (shiftLoop q now l).2 = l.filter (fun x => !matchQ q x) := by
  induction l with
  | nil => simp [shiftLoop]
  | cons a rest ih =>
    by_cases hm : matchQ q a = true
    · by_cases he : expired q now a = true
      · simp only [shiftLoop, hm, he, if_true] at h ⊢
        simpa [List.filter_cons, hm] using ih h
      · simp [shiftLoop, hm, he] at h
    · simp only [shiftLoop, hm, if_false, Bool.false_eq_true] at h ⊢
      simpa [List.filter_cons, hm] using ih h

theorem shiftLoop_some_count (q : Queue) (now : Int) (l : List Entry) (e : Entry)
    (h : (shiftLoop q now l).1 = some e) :
    (shiftLoop q now l).2.count e + 1 = l.count e := by
  have hf : freshMatch q now e = true := (shiftLoop_some_fresh q now l e h).1
  induction l with
  | nil => simp [shiftLoop] at h
  | cons a rest ih =>
    by_cases hm : matchQ q a = true
    · by_cases he : expired q now a = true
      · have hne : a ≠ e := by
          intro hae
          rw [hae] at he
          simp [freshMatch, he] at hf
        simp only [shiftLoop, hm, he, if_true] at h ⊢
        simp [List.count_cons, hne, ih h]
      · simp only [shiftLoop, hm, he, if_true, if_false, Bool.false_eq_true,
          Option.some.injEq] at h ⊢
        subst h
        simp [List.count_cons]
    · have hne : a ≠ e := by
        intro hae
        rw [hae] at hm
        simp [freshMatch, hm] at hf
      simp only [shiftLoop, hm, if_false, Bool.false_eq_true] at h ⊢
      simp [List.count_cons, hne, ih h]

theorem drainShiftGo_spec (q : Queue) (now : Int) :
    ∀ (fuel : Nat) (s : Store), s.entries.length ≤ fuel →
    drainShiftGo q now fuel s =
      (s.entries.filter (freshMatch q now),
       ⟨s.entries.filter (fun x => !matchQ q x), s.nextId⟩) := by
  intro fuel
  induction fuel with
  | zero =>
    intro s hs
    obtain ⟨es, nid⟩ := s
    have hnil : es = [] := by
      simpa using List.eq_nil_of_length_eq_zero (Nat.le_zero.mp (by simpa using hs))
    subst hnil
    simp [drainShiftGo]
  | succ fuel ih =>
    intro s hs
    cases h1 : (shiftLoop q now s.entries).1 with
    | none =>
      have h3 := shiftLoop_none_eq q now s.entries h1
      have h4 : s.entries.filter (freshMatch q now) = [] := by
        have h5 : (s.entries.filter (freshMatch q now)).head? = none := by
          rw [← shiftLoop_fst q now s.entries]
          exact h1
        exact List.head?_eq_none_iff.mp h5
      simp [drainShiftGo, shiftRequest, h1, h3, h4]
    | some e =>
      have hlen := shiftLoop_some_length q now s.entries e h1
      have hrec := ih ⟨(shiftLoop q now s.entries).2, s.nextId⟩
        (by
          show (shiftLoop q now s.entries).2.length ≤ fuel
          omega)
      simp only [drainShiftGo, shiftRequest, h1]
      rw [hrec, shiftLoop_some_filter q now s.entries e h1,
        shiftLoop_some_nonmatch q now s.entries e h1]

theorem drainShift_eq (q : Queue) (now : Int) (s : Store) :
    drainShift q now s =
      (s.entries.filter (freshMatch q now),
       ⟨s.entries.filter (fun x => !matchQ q x), s.nextId⟩) :=
  drainShiftGo_spec q now s.entries.length s (Nat.le_refl _)

theorem drainPopGo_spec (q : Queue) (now : Int) :
    ∀ (fuel : Nat) (s : Store), s.entries.length ≤ fuel →
    drainPopGo q now fuel s =
      ((s.entries.filter (freshMatch q now)).reverse,
       ⟨s.entries.filter (fun x => !matchQ q x), s.nextId⟩) := by
  intro fuel
  induction fuel with
  | zero =>
    intro s hs
    obtain ⟨es, nid⟩ := s
    have hnil : es = [] := by
      simpa using List.eq_nil_of_length_eq_zero (Nat.le_zero.mp (by simpa using hs))
    subst hnil
    simp [drainPopGo]
  | succ fuel ih =>
    intro s hs
    cases h1 : (shiftLoop q now s.entries.reverse).1 with
    | none =>
      have h3 := shiftLoop_none_eq q now s.entries.reverse h1
      have h4 : s.entries.reverse.filter (freshMatch q now) = [] := by
        have h5 : (s.entries.reverse.filter (freshMatch q now)).head? = none := by
          rw [← shiftLoop_fst q now s.entries.reverse]
          exact h1
        exact List.head?_eq_none_iff.mp h5
      have h6 : (s.entries.filter (freshMatch q now)).reverse = [] := by
        rw [← List.filter_reverse]
        exact h4
      have h7 : (shiftLoop q now s.entries.reverse).2.reverse =
          s.entries.filter (fun x => !matchQ q x) := by
        rw [h3, List.filter_reverse, List.reverse_reverse]
      simp [drainPopGo, popRequest, h1, h6, h7]
    | some e =>
      have hlen := shiftLoop_some_length q now s.entries.reverse e h1
      have hrec := ih ⟨(shiftLoop q now s.entries.reverse).2.reverse, s.nextId⟩
        (by
          show (shiftLoop q now s.entries.reverse).2.reverse.length ≤ fuel
          rw [List.length_reverse]
          rw [List.length_reverse] at hlen
          omega)
      have hfil := shiftLoop_some_filter q now s.entries.reverse e h1
      rw [List.filter_reverse] at hfil
      have hnm := shiftLoop_some_nonmatch q now s.entries.reverse e h1
      rw [List.filter_reverse] at hnm
      simp only [drainPopGo, popRequest, h1]
      rw [hrec]
      simp only [List.filter_reverse, List.reverse_reverse, Prod.mk.injEq,
        Store.mk.injEq]
      refine ⟨?_, ?_, trivial⟩
      · exact hfil.symm
      · rw [hnm, List.reverse_reverse]

theorem drainPop_eq (q : Queue) (now : Int) (s : Store) :
    drainPop q now s =
      ((s.entries.filter (freshMatch q now)).reverse,
       ⟨s.entries.filter (fun x => !matchQ q x), s.nextId⟩) :=
  drainPopGo_spec q now s.entries.length s (Nat.le_refl _)

theorem replayGo_ok (q : Queue) (now : Int) (fetchOk : Nat → Bool)
    (hok : ∀ i, fetchOk i = true) :
    ∀ (fuel : Nat) (s : Store) (idx : Nat), s.entries.length ≤ fuel →
    replayGo q fetchOk now fuel idx s =
      ⟨none, ⟨s.entries.filter (fun x => !matchQ q x), s.nextId⟩,
       (s.entries.filter (freshMatch q now)).map (fun e => e.requestData)⟩ := by
  intro fuel
  induction fuel with
  | zero =>
    intro s idx hs
    obtain ⟨es, nid⟩ := s
    have hnil : es = [] := by
      simpa using List.eq_nil_of_length_eq_zero (Nat.le_zero.mp (by simpa using hs))
    subst hnil
    simp [replayGo]
  | succ fuel ih =>
    intro s idx hs
    cases h1 : (shiftLoop q now s.entries).1 with
    | none =>
      have h3 := shiftLoop_none_eq q now s.entries h1
      have h4 : s.entries.filter (freshMatch q now) = [] := by
        have h5 : (s.entries.filter (freshMatch q now)).head? = none := by
          rw [← shiftLoop_fst q now s.entries]
          exact h1
        exact List.head?_eq_none_iff.mp h5
      simp [replayGo, shiftRequest, h1, h3, h4]
    | some e =>
      have hlen := shiftLoop_some_length q now s.entries e h1
      have hrec := ih ⟨(shiftLoop q now s.entries).2, s.nextId⟩ (idx + 1)
        (by
          show (shiftLoop q now s.entries).2.length ≤ fuel
          omega)
      simp only [replayGo, shiftRequest, h1, hok idx, if_true]
      rw [hrec, shiftLoop_some_filter q now s.entries e h1,
        shiftLoop_some_nonmatch q now s.entries e h1]
      simp

theorem replayRequests_ok (q : Queue) (now : Int) (fetchOk : Nat → Bool)
    (hok : ∀ i, fetchOk i = true) (s : Store) :
    replayRequests q fetchOk now s =
      ⟨none, ⟨s.entries.filter (fun x => !matchQ q x), s.nextId⟩,
       (s.entries.filter (freshMatch q now)).map (fun e => e.requestData)⟩ :=
  replayGo_ok q now fetchOk hok s.entries.length s 0 (Nat.le_refl _)

theorem replayGo_fail (q : Queue) (now : Int) (fetchOk : Nat → Bool) :
    ∀ (l : List Entry) (fuel : Nat) (nid : Int) (idx k : Nat),
    (∀ e ∈ l, matchQ q e = true ∧ expired q now e = false) →
    1 ≤ k → k ≤ l.length → l.length ≤ fuel →
    (∀ i, i + 1 < k → fetchOk (idx + i) = true) →
    fetchOk (idx + (k - 1)) = false →
    (replayGo q fetchOk now fuel idx ⟨l, nid⟩).error = some "queue-replay-failed" ∧
    (replayGo q fetchOk now fuel idx ⟨l, nid⟩).fetched =
      (l.take k).map (fun e => e.requestData) ∧
    (replayGo q fetchOk now fuel idx ⟨l, nid⟩).store.entries.map Entry.payload =
      (l.drop (k - 1)).map Entry.payload := by
  intro l
  induction l with
  | nil =>
    intro fuel nid idx k hall hk1 hk2 hfuel hsucc hfail
    simp only [List.length_nil] at hk2
    omega
  | cons a rest ih =>
    intro fuel nid idx k hall hk1 hk2 hfuel hsucc hfail
    obtain ⟨hm, he⟩ := hall a (List.mem_cons_self a rest)
    cases fuel with
    | zero => simp at hfuel
    | succ fuel =>
      have hfuel2 : rest.length ≤ fuel := by
        simp only [List.length_cons] at hfuel
        omega
      have hshift : shiftRequest q now ⟨a :: rest, nid⟩ = (some a, ⟨rest, nid⟩) := by
        simp [shiftRequest, shiftLoop, hm, he]
      obtain ⟨k1, rfl⟩ : ∃ k1, k = k1 + 1 := ⟨k - 1, by omega⟩
      by_cases hk0 : k1 = 0
      · subst hk0
        have hfi : fetchOk idx = false := by simpa using hfail
        simp only [replayGo, hshift, hfi, if_false, Bool.false_eq_true]
        refine ⟨trivial, by simp, ?_⟩
        rw [addFirst_payloads]
        simp
      · have hfi : fetchOk idx = true := by
          have h0 := hsucc 0 (by omega)
          simpa using h0
        have hk2r : k1 ≤ rest.length := by
          simp only [List.length_cons] at hk2
          omega
        have ihh := ih fuel nid (idx + 1) k1
          (fun e hme => hall e (List.mem_cons_of_mem a hme))
          (by omega) hk2r hfuel2
          (fun i hi => by
            have h2 := hsucc (i + 1) (by omega)
            have h3 : idx + (i + 1) = idx + 1 + i := by omega
            rw [h3] at h2
            exact h2)
          (by
            have h4 : idx + 1 + (k1 - 1) = idx + (k1 + 1 - 1) := by omega
            rw [h4]
            exact hfail)
        simp only [replayGo, hshift, hfi, if_true]
        refine ⟨ihh.1, ?_, ?_⟩
        · have hk3 : k1 + 1 = k1 + 1 := rfl
          rw [List.take_succ_cons, List.map_cons, ihh.2.1]
        · have hk4 : k1 + 1 - 1 = (k1 - 1) + 1 := by omega
          rw [ihh.2.2, hk4, List.drop_succ_cons]

theorem pushAll_spec (q : Queue) (sync : Bool) (reg : String → Except String Unit)
    (now : Int) :
    ∀ (inputs : List PushInput) (s : Store),
    pushAll q sync reg now inputs s =
      ⟨s.entries ++ mkEntries q now inputs s.nextId,
       s.nextId + (inputs.length : Int)⟩ := by
  intro inputs
  induction inputs with
  | nil =>
    intro s
    simp [pushAll, mkEntries]
  | cons inp rest ih =>
    intro s
    have h1 : pushAll q sync reg now (inp :: rest) s =
        pushAll q sync reg now rest (s.addLast ⟨q.name, serialize inp.request,
          inp.timestamp.getD now, inp.metadata⟩) := rfl
    rw [h1, ih]
    simp only [Store.addLast, mkEntries, Store.mk.injEq, List.length_cons]
    refine ⟨?_, by push_cast; omega⟩
    rw [List.append_assoc]
    rfl

theorem mkEntries_fresh (q : Queue) (now : Int) :
    ∀ (inputs : List PushInput) (i : Int),
    (∀ inp ∈ inputs,
      now - inp.timestamp.getD now ≤ (q.maxRetentionTime : Int) * 60 * 1000) →
    ∀ e ∈ mkEntries q now inputs i, freshMatch q now e = true := by
  intro inputs
  induction inputs with
  | nil =>
    intro i h e he
    simp [mkEntries] at he
  | cons inp rest ih =>
    intro i h e he
    simp only [mkEntries, List.mem_cons] at he
    rcases he with he | he
    · subst he
      have hts := h inp (List.mem_cons_self inp rest)
      simp only [freshMatch, matchQ, expired, Payload.toEntry, beq_self_eq_true,
        Bool.true_and]
      simp only [Bool.not_eq_true', decide_eq_false_iff_not, not_lt]
      exact hts
    · exact ih (i + 1) (fun inp2 hm => h inp2 (List.mem_cons_of_mem inp hm)) e he

theorem filter_fresh_of_all (q : Queue) (now : Int) (l : List Entry)
    (h : ∀ e ∈ l, freshMatch q now e = true) :
    l.filter (freshMatch q now) = l :=
  List.filter_eq_self.mpr h

theorem filter_nonmatch_of_all (q : Queue) (now : Int) (l : List Entry)
    (h : ∀ e ∈ l, freshMatch q now e = true) :
    l.filter (fun x => !matchQ q x) = [] := by
  rw [List.filter_eq_nil_iff]
  intro e he
  have h2 := h e he
  simp only [freshMatch, Bool.and_eq_true] at h2
  simp [h2.1]

/-- C1: for every sequence of `pushRequest` calls on a single queue (all
entries still within the retention window at read time), subsequent
`shiftRequest` calls return the stored entries in push (FIFO) order until
the store is drained, `popRequest` calls return them in reverse push
order, and each `shiftRequest`/`popRequest` that returns an entry removes
one occurrence of that entry from the store. -/
theorem C1_push_fifo (name : String) (mrt : Nat) (sync : Bool)
    (reg : String → Except String Unit) (now : Int) (inputs : List PushInput)
    (hfresh : ∀ inp ∈ inputs,
      now - inp.timestamp.getD now ≤ (mrt : Int) * 60 * 1000) :
    drainShift ⟨name, mrt⟩ now
        (pushAll ⟨name, mrt⟩ sync reg now inputs emptyStore) =
      (mkEntries ⟨name, mrt⟩ now inputs 1, ⟨[], 1 + (inputs.length : Int)⟩) ∧
    drainPop ⟨name, mrt⟩ now
        (pushAll ⟨name, mrt⟩ sync reg now inputs emptyStore) =
      ((mkEntries ⟨name, mrt⟩ now inputs 1).reverse,
       ⟨[], 1 + (inputs.length : Int)⟩) ∧
    (∀ (t : Store) (e : Entry), (shiftRequest ⟨name, mrt⟩ now t).1 = some e →
      (shiftRequest ⟨name, mrt⟩ now t).2.entries.count e + 1 = t.entries.count e) ∧
    (∀ (t : Store) (e : Entry), (popRequest ⟨name, mrt⟩ now t).1 = some e →
      (popRequest ⟨name, mrt⟩ now t).2.entries.count e + 1 = t.entries.count e) := by
  have hpush := pushAll_spec ⟨name, mrt⟩ sync reg now inputs emptyStore
  have hall : ∀ e ∈ mkEntries ⟨name, mrt⟩ now inputs 1,
      freshMatch ⟨name, mrt⟩ now e = true :=
    mkEntries_fresh ⟨name, mrt⟩ now inputs 1 hfresh
  refine ⟨?_, ?_, ?_, ?_⟩
  · rw [hpush, drainShift_eq]
    simp only [emptyStore, List.nil_append]
    rw [filter_fresh_of_all _ now _ hall, filter_nonmatch_of_all _ now _ hall]
  · rw [hpush, drainPop_eq]
    simp only [emptyStore, List.nil_append]
    rw [filter_fresh_of_all _ now _ hall, filter_nonmatch_of_all _ now _ hall]
  · intro t e h
    exact shiftLoop_some_count ⟨name, mrt⟩ now t.entries e h
  · intro t e h
    have h2 := shiftLoop_some_count ⟨name, mrt⟩ now t.entries.reverse e h
    simpa [popRequest, List.count_reverse] using h2

/-- Witness for C1: two pushes into queue `a`, drained by `shiftRequest`. -/
theorem C1_push_fifo_witness :
    drainShift ⟨"a", MAX_RETENTION_TIME⟩ 0
        (pushAll ⟨"a", MAX_RETENTION_TIME⟩ false okRegister 0
          [samplePush "/one", samplePush "/two"] emptyStore) =
      (mkEntries ⟨"a", MAX_RETENTION_TIME⟩ 0
        [samplePush "/one", samplePush "/two"] 1, ⟨[], 3⟩) := by
  have h := (C1_push_fifo "a" MAX_RETENTION_TIME false okRegister 0
    [samplePush "/one", samplePush "/two"] (by decide)).1
  simpa using h

/-- C2: if the k-th fetch issued during `replayRequests` rejects (every
earlier one resolving), the call fails with the WorkboxError code
`queue-replay-failed`, exactly k fetches were issued (none after the
failed one), and afterwards the store contains exactly the original
entries from position k onward (1-based; the failed entry re-enqueued at
the head with its content — queue name, request data, timestamp,
metadata — preserved, under a freshly assigned id), in their original
relative order.  Stated for a store holding the queue's own non-expired
entries, as in the spec scenario. -/
theorem C2_replay_stop_on_failure (q : Queue) (now : Int) (fetchOk : Nat → Bool)
    (l : List Entry) (nid : Int) (k : Nat)
    (hall : ∀ e ∈ l, matchQ q e = true ∧ expired q now e = false)
    (hk1 : 1 ≤ k) (hk2 : k ≤ l.length)
    (hsucc : ∀ i, i + 1 < k → fetchOk i = true)
    (hfail : fetchOk (k - 1) = false) :
    (replayRequests q fetchOk now ⟨l, nid⟩).error = some "queue-replay-failed" ∧
    (replayRequests q fetchOk now ⟨l, nid⟩).fetched =
      (l.take k).map (fun e => e.requestData) ∧
    (replayRequests q fetchOk now ⟨l, nid⟩).store.entries.map Entry.payload =
      (l.drop (k - 1)).map Entry.payload := by
  have h := replayGo_fail q now fetchOk l l.length nid 0 k hall hk1 hk2
    (Nat.le_refl _)
    (fun i hi => by simpa using hsucc i hi)
    (by simpa using hfail)
  exact h

/-- Witness for C2: five entries, the 4th fetch rejects; the error is the
`queue-replay-failed` WorkboxError code. -/
theorem C2_replay_stop_on_failure_witness :
    (replayRequests sampleQueue (fun i => decide (i < 3)) 0
      ⟨mkEntries sampleQueue 0 [samplePush "/one", samplePush "/two",
        samplePush "/three", samplePush "/four", samplePush "/five"] 1, 6⟩).error =
      some "queue-replay-failed" :=
  (C2_replay_stop_on_failure sampleQueue 0 (fun i => decide (i < 3))
    (mkEntries sampleQueue 0 [samplePush "/one", samplePush "/two",
      samplePush "/three", samplePush "/four", samplePush "/five"] 1) 6 4
    (by decide) (by decide) (by decide)
    (fun i hi => by
      simp only [decide_eq_true_eq]
      omega)
    (by decide)).1

/-- C3: when every fetch resolves, `replayRequests` on a queue returns
without error, issues exactly one fetch per non-expired entry of that
queue in store (id-ascending) order, removes all of that queue's entries,
and leaves the entries of every other queue in the shared store
unchanged. -/
theorem C3_replay_success (q : Queue) (now : Int) (fetchOk : Nat → Bool)
    (s : Store) (hok : ∀ i, fetchOk i = true)
    (hsort : s.entries.Pairwise (fun a b => a.id < b.id)) :
    (replayRequests q fetchOk now s).error = none ∧
    (replayRequests q fetchOk now s).fetched =
      (s.entries.filter (freshMatch q now)).map (fun e => e.requestData) ∧
    (replayRequests q fetchOk now s).store.entries =
      s.entries.filter (fun x => !matchQ q x) := by
  have h := replayRequests_ok q now fetchOk hok s
  rw [h]
  exact ⟨rfl, rfl, rfl⟩

/-- Witness for C3: a shared store with queues `a` and `b`; replaying `a`
leaves exactly `b`'s entries. -/
theorem C3_replay_success_witness :
    (replayRequests sampleQueue (fun _ => true) 0 sampleStoreAB).store.entries =
      sampleStoreAB.entries.filter (fun x => !matchQ sampleQueue x) :=
  (C3_replay_success sampleQueue 0 (fun _ => true) sampleStoreAB
    (fun _ => rfl) (by decide)).2.2

/-- C4: expiry on read — a full `replayRequests` pass with all fetches
resolving deletes every entry of the queue, expired ones included, while
fetching only the non-expired ones; and full `shiftRequest` / `popRequest`
drain passes return only non-expired entries (in order, resp. reverse
order) while deleting all of the queue's entries, so an expired entry is
never returned or fetched. -/
theorem C4_expired_pruned_without_fetch (q : Queue) (now : Int)
    (fetchOk : Nat → Bool) (s : Store) (hok : ∀ i, fetchOk i = true) :
    (replayRequests q fetchOk now s).fetched =
      (s.entries.filter (freshMatch q now)).map (fun e => e.requestData) ∧
    (replayRequests q fetchOk now s).store.entries =
      s.entries.filter (fun x => !matchQ q x) ∧
    (drainShift q now s).1 = s.entries.filter (freshMatch q now) ∧
    (drainShift q now s).2.entries = s.entries.filter (fun x => !matchQ q x) ∧
    (drainPop q now s).1 = (s.entries.filter (freshMatch q now)).reverse ∧
    (drainPop q now s).2.entries = s.entries.filter (fun x => !matchQ q x) := by
  have h1 := replayRequests_ok q now fetchOk hok s
  have h2 := drainShift_eq q now s
  have h3 := drainPop_eq q now s
  rw [h1, h2, h3]
  exact ⟨rfl, rfl, rfl, rfl, rfl, rfl⟩

/-- Witness for C4: a store whose head entry is expired; the replay pass
fetches only the fresh entry. -/
theorem C4_expired_pruned_without_fetch_witness :
    (replayRequests sampleQueue (fun _ => true) 700000000 sampleStoreExp).fetched =
      (sampleStoreExp.entries.filter
        (freshMatch sampleQueue 700000000)).map (fun e => e.requestData) :=
  (C4_expired_pruned_without_fetch sampleQueue 700000000 (fun _ => true)
    sampleStoreExp (fun _ => rfl)).1

/-- C5: registering a queue name twice fails with DuplicateQueueName on the
second construction, a distinct fresh name succeeds, and after clearing the
registry a previously used name registers again. -/
theorem C5_duplicate_queue_name (names : List String) (name other : String)
    (opts opts2 opts3 : Option Nat)
    (hfresh : name ∉ names) (hother : other ∉ names ++ [name]) :
    mkQueue names name opts =
      .ok (⟨name, opts.getD MAX_RETENTION_TIME⟩, names ++ [name]) ∧
    mkQueue (names ++ [name]) name opts2 = .error .duplicateQueueName ∧
    mkQueue (names ++ [name]) other opts2 =
      .ok (⟨other, opts2.getD MAX_RETENTION_TIME⟩, (names ++ [name]) ++ [other]) ∧
    mkQueue (clearQueueNames (names ++ [name])) name opts3 =
      .ok (⟨name, opts3.getD MAX_RETENTION_TIME⟩, [name]) := by
  refine ⟨?_, ?_, ?_, ?_⟩
  · simp [mkQueue, hfresh]
  · simp [mkQueue]
  · simp [mkQueue, hother]
  · simp [mkQueue, clearQueueNames]

/-- Witness for C5: `foo` registers, a second `foo` fails. -/
theorem C5_duplicate_queue_name_witness :
    mkQueue ([] ++ ["foo"]) "foo" none = .error .duplicateQueueName :=
  (C5_duplicate_queue_name [] "foo" "bar" none none none (by decide)
    (by decide)).2.1

/-- C6: serialization round-trip — for every live request (whose body is
absent when the method is GET or HEAD, as the fetch API guarantees for live
requests), deserializing the serialized form yields a request equal in
url, method, headers, body bytes, mode, credentials, cache, redirect,
referrer and integrity — that is, equal as a whole. -/
theorem C6_serialize_round_trip (r : SRequest)
    (hbody : r.method = "GET" ∨ r.method = "HEAD" → r.body = none) :
    deserialize (serialize r) = r := by
  obtain ⟨url, method, headers, body, mode, credentials, cache, redirect,
    referrer, integrity⟩ := r
  by_cases h : method = "GET" ∨ method = "HEAD"
  · have hb : body = none := hbody h
    simp [serialize, deserialize, h, hb]
  · simp [serialize, deserialize, h]

/-- Witness for C6: a POST request with headers and a body survives the
round trip. -/
theorem C6_serialize_round_trip_witness :
    deserialize (serialize samplePost) = samplePost :=
  C6_serialize_round_trip samplePost (by decide)

/-- C7: the onSync callback is invoked at construction iff the host lacks a
background-sync facility; when the host has one, a dispatched sync event
invokes onSync for this queue exactly once when its tag equals
`workbox-background-sync:` followed by the queue name, and never for any
other tag. -/
theorem C7_onSync_dispatch (syncSupported : Bool) (name tag : String) :
    (constructorOnSyncCalls syncSupported name = [name] ↔ syncSupported = false) ∧
    (constructorOnSyncCalls syncSupported name = [] ↔ syncSupported = true) ∧
    (syncSupported = true →
      syncEventOnSyncCalls syncSupported name tag =
        (if tag = "workbox-background-sync:" ++ name then [name] else [])) ∧
    syncTag name = "workbox-background-sync:" ++ name := by
  have htag : syncTag name = "workbox-background-sync:" ++ name := by
    simp [syncTag, TAG_PREFIX]
  refine ⟨?_, ?_, ?_, htag⟩
  · cases syncSupported <;> simp [constructorOnSyncCalls]
  · cases syncSupported <;> simp [constructorOnSyncCalls]
  · intro hs
    subst hs
    by_cases ht : tag = "workbox-background-sync:" ++ name
    · simp [syncEventOnSyncCalls, htag, ht]
    · simp [syncEventOnSyncCalls, htag, ht]

/-- Witness for C7: without background-sync support the constructor invokes
onSync for the queue. -/
theorem C7_onSync_dispatch_witness :
    constructorOnSyncCalls false "foo" = ["foo"] :=
  (C7_onSync_dispatch false "foo" "workbox-background-sync:foo").1.mpr rfl

/-- C8: `registerSync` always returns normally — with background-sync
support it invokes the host trigger with the queue's tag even when the
host's register call rejects, and without support it is a no-op — and
`pushRequest` / `unshiftRequest` each insert the entry and invoke it. -/
theorem C8_registerSync_swallows (syncSupported : Bool)
    (hostRegister : String → Except String Unit) (q : Queue) (now : Int)
    (inp : PushInput) (s : Store) (name : String) :
    (registerSync syncSupported hostRegister name).1 = .ok () ∧
    (syncSupported = true →
      (registerSync syncSupported hostRegister name).2 = [syncTag name]) ∧
    (syncSupported = false →
      (registerSync syncSupported hostRegister name).2 = []) ∧
    (pushRequest q syncSupported hostRegister now inp s).2 =
      (registerSync syncSupported hostRegister q.name).2 ∧
    (pushRequest q syncSupported hostRegister now inp s).1 =
      s.addLast ⟨q.name, serialize inp.request, inp.timestamp.getD now,
        inp.metadata⟩ ∧
    (unshiftRequest q syncSupported hostRegister now inp s).2 =
      (registerSync syncSupported hostRegister q.name).2 ∧
    (unshiftRequest q syncSupported hostRegister now inp s).1 =
      s.addFirst ⟨q.name, serialize inp.request, inp.timestamp.getD now,
        inp.metadata⟩ := by
  refine ⟨?_, ?_, ?_, rfl, rfl, rfl, rfl⟩
  · cases syncSupported with
    | false => simp [registerSync]
    | true =>
      cases h : hostRegister (syncTag name) <;> simp [registerSync, h]
  · intro h
    subst h
    simp [registerSync]
  · intro h
    subst h
    simp [registerSync]

/-- Witness for C8: a rejecting host register call still yields a normal
return. -/
theorem C8_registerSync_swallows_witness :
    (registerSync true (fun _ => Except.error "Injected Error") "a").1 =
      Except.ok () :=
  (C8_registerSync_swallows true (fun _ => Except.error "Injected Error")
    sampleQueue 0 (samplePush "/") emptyStore "a").1

/-- C9: when the constructor option is omitted the default maxRetentionTime
is MAX_RETENTION_TIME, which equals 60 * 24 * 7 = 10080 minutes (7 days in
minutes). -/
theorem C9_default_retention (names : List String) (name : String)
    (hfresh : name ∉ names) :
    mkQueue names name none =
      .ok (⟨name, MAX_RETENTION_TIME⟩, names ++ [name]) ∧
    MAX_RETENTION_TIME = 60 * 24 * 7 ∧
    MAX_RETENTION_TIME = 10080 := by
  refine ⟨?_, rfl, rfl⟩
  simp [mkQueue, hfresh]

/-- Witness for C9: a queue constructed without options gets the default
retention time. -/
theorem C9_default_retention_witness :
    mkQueue [] "a" none = .ok (⟨"a", MAX_RETENTION_TIME⟩, [] ++ ["a"]) :=
  (C9_default_retention [] "a" (by decide)).1

/-- C10: a single `shiftRequest` (resp. `popRequest`) call returns the
first (resp. last) non-expired entry of the queue — with its stored
timestamp and metadata, since the whole entry is returned.  When it
returns an entry `e`, the store decomposes as a scanned part, `e`, and an
untouched part: the scanned part holds no non-expired entry of the queue,
and afterwards the store is exactly the scanned part with the queue's
(expired) entries deleted, followed by the untouched part — so every
consecutive expired entry encountered up to `e` is deleted and nothing
else changes.  The call returns nothing only when no non-expired entry
remains, in which case all of the queue's (expired) entries have been
deleted. -/
theorem C10_single_call_skips_expired (q : Queue) (now : Int) (s : Store) :
    (shiftRequest q now s).1 = (s.entries.filter (freshMatch q now)).head? ∧
    (popRequest q now s).1 = (s.entries.filter (freshMatch q now)).getLast? ∧
    (∀ e, (shiftRequest q now s).1 = some e →
      freshMatch q now e = true ∧ e ∈ s.entries) ∧
    (∀ e, (popRequest q now s).1 = some e →
      freshMatch q now e = true ∧ e ∈ s.entries) ∧
    (∀ e, (shiftRequest q now s).1 = some e →
      ∃ p rest, s.entries = p ++ e :: rest ∧
        (∀ x ∈ p, freshMatch q now x = false) ∧
        (shiftRequest q now s).2.entries =
          p.filter (fun x => !matchQ q x) ++ rest) ∧
    (∀ e, (popRequest q now s).1 = some e →
      ∃ p rest, s.entries = p ++ e :: rest ∧
        (∀ x ∈ rest, freshMatch q now x = false) ∧
        (popRequest q now s).2.entries =
          p ++ rest.filter (fun x => !matchQ q x)) ∧
    ((shiftRequest q now s).1 = none →
      (shiftRequest q now s).2.entries = s.entries.filter (fun x => !matchQ q x)) ∧
    ((popRequest q now s).1 = none →
      (popRequest q now s).2.entries = s.entries.filter (fun x => !matchQ q x)) := by
  refine ⟨?_, ?_, ?_, ?_, ?_, ?_, ?_, ?_⟩
  · exact shiftLoop_fst q now s.entries
  · have h := shiftLoop_fst q now s.entries.reverse
    rw [List.filter_reverse, List.head?_reverse] at h
    exact h
  · intro e h
    exact shiftLoop_some_fresh q now s.entries e h
  · intro e h
    have h2 := shiftLoop_some_fresh q now s.entries.reverse e h
    exact ⟨h2.1, List.mem_reverse.mp h2.2⟩
  · intro e h
    exact shiftLoop_some_decomp q now s.entries e h
  · intro e h
    obtain ⟨p, r, hsplit, hfail, hpost⟩ :=
      shiftLoop_some_decomp q now s.entries.reverse e h
    refine ⟨r.reverse, p.reverse, ?_, ?_, ?_⟩
    · have h3 : s.entries.reverse.reverse = (p ++ e :: r).reverse := by
        rw [hsplit]
      rw [List.reverse_reverse] at h3
      rw [h3]
      simp [List.reverse_append]
    · intro x hx
      exact hfail x (List.mem_reverse.mp hx)
    · show (shiftLoop q now s.entries.reverse).2.reverse = _
      rw [hpost]
      simp [List.reverse_append, List.filter_reverse]
  · intro h
    exact shiftLoop_none_eq q now s.entries h
  · intro h
    have h2 := shiftLoop_none_eq q now s.entries.reverse h
    show (shiftLoop q now s.entries.reverse).2.reverse = _
    rw [h2, List.filter_reverse, List.reverse_reverse]

/-- Witness for C10: on a store whose head entry is expired, `shiftRequest`
returns the second (fresh) entry rather than nothing. -/
theorem C10_single_call_skips_expired_witness :
    (shiftRequest sampleQueue 700000000 sampleStoreExp).1 =
      some ⟨2, "a", serialize (sampleReq "/new"), 700000000, none⟩ :=
  ((C10_single_call_skips_expired sampleQueue 700000000 sampleStoreExp).1).trans
    (by decide)

end Workbox
